import Mathlib

/-!
Verification of the registration/selection core of the compound-widget
library (Tabs / Accordion / Modal).  The definitions below are a shallow
embedding of the state logic in `src/src/App.tsx` (positional-matching
Tabs, Accordion, Modal) and of the controlled/keyed Tabs variant in
`src/unnamed/part_000`.  JavaScript truthiness on `string | null` values
is modelled explicitly: `null` and the empty string are falsy.
-/

/-- JS truthiness of a `string | null` value: `null` and `""` are falsy. -/
def strFalsy (o : Option String) : Bool :=
  match o with
  | none => true
  | some s => s = ""

namespace Tabs

/-- One slot of the Tabs registry (`TabItem` in App.tsx).  `isActive` is the
optional boolean field present in the source type; it is written but never
read. -/
structure TabItem where
  id : String
  contentId : Option String
  isActive : Option Bool
deriving Repr, DecidableEq

/-- State owned by `RootTabs` in App.tsx: the ordered slot list and the
uncontrolled active selection. -/
structure TabsState where
  tabs : List TabItem
  activeContentId : Option String
deriving Repr, DecidableEq

/-- `registerTrigger` (App.tsx lines 42-48), slot-list part: append a fresh
slot unless a slot with this id already exists. -/
def registerTriggerTabs (id : String) (prev : List TabItem) : List TabItem :=
  if (prev.find? (fun tab => tab.id = id)).isSome then prev
  else prev ++ [⟨id, none, some false⟩]

/-- `registerContent` (App.tsx lines 50-70), slot-list part: if the contentId
is already bound, or no slot has an unset contentId, return the list
unchanged; otherwise bind the contentId to the first slot whose contentId is
unset. -/
def registerContentTabs (contentId : String) (prev : List TabItem) : List TabItem :=
  if prev.any (fun tab => tab.contentId = some contentId) then prev
  else
    match prev.find? (fun tab => tab.contentId = none) with
    | none => prev
    | some lastUnregistred =>
      prev.map (fun tab =>
        if tab.id = lastUnregistred.id then { tab with contentId := some contentId } else tab)

/-- `registerTrigger` on the whole `RootTabs` state. -/
def registerTrigger (id : String) (s : TabsState) : TabsState :=
  { s with tabs := registerTriggerTabs id s.tabs }

/-- `registerContent` on the whole `RootTabs` state (App.tsx lines 50-78).
Besides the slot-list update it runs `setActiveContentId(prev => !prev ?
contentId : prev)` unconditionally: a falsy previous selection is replaced by
the incoming contentId even when the binding attempt itself failed. -/
def registerContent (contentId : String) (s : TabsState) : TabsState :=
  { tabs := registerContentTabs contentId s.tabs
    activeContentId :=
      if strFalsy s.activeContentId then some contentId else s.activeContentId }

/-- `unregisterTrigger` (App.tsx lines 80-86): drop every slot whose id
matches. -/
def unregisterTrigger (id : String) (s : TabsState) : TabsState :=
  { s with tabs := s.tabs.filter (fun tab => tab.id ≠ id) }

/-- `unregisterContent` (App.tsx lines 88-96): clear the contentId field of
any slot bound to it; the slot itself remains. -/
def unregisterContent (contentId : String) (s : TabsState) : TabsState :=
  { s with tabs := s.tabs.map (fun tab =>
      if tab.contentId = some contentId then { tab with contentId := none } else tab) }

/-- The four registry operations of `RootTabs`. -/
inductive RegOp where
  | regTrigger (id : String)
  | regContent (contentId : String)
  | unregTrigger (id : String)
  | unregContent (contentId : String)

/-- Apply one registry operation to the `RootTabs` state. -/
def applyOp : RegOp → TabsState → TabsState
  | .regTrigger id, s => registerTrigger id s
  | .regContent contentId, s => registerContent contentId s
  | .unregTrigger id, s => unregisterTrigger id s
  | .unregContent contentId, s => unregisterContent contentId s

/-- The empty initial state of `RootTabs` (`useState([])`, `useState(null)`). -/
def initState : TabsState := ⟨[], none⟩

/-- States reachable from the initial state by registry operations. -/
inductive Reachable : TabsState → Prop
  | init : Reachable initState
  | step (s : TabsState) (op : RegOp) : Reachable s → Reachable (applyOp op s)

/-- The list of contentIds currently bound to some slot. -/
def boundContents (tabs : List TabItem) : List String :=
  tabs.filterMap (fun tab => tab.contentId)

/-- A freshly registered slot: trigger id only, no content bound yet. -/
def mkFree (t : String) : TabItem := ⟨t, none, some false⟩

/-- A slot whose trigger has been bound to a content id. -/
def mkBound (p : String × String) : TabItem := ⟨p.1, some p.2, some false⟩

/-- Canonical slot-list shape during a registration run: the already-bound
pairs followed by the still-unbound triggers, in registration order. -/
def shape (done : List (String × String)) (pending : List String) : List TabItem :=
  done.map mkBound ++ pending.map mkFree

/-- Run a list of trigger registrations over a slot list. -/
def runTriggerRegs (ts : List String) (tabs : List TabItem) : List TabItem :=
  ts.foldl (fun tb t => registerTriggerTabs t tb) tabs

/-- Run a list of content registrations over a slot list. -/
def runContentRegs (cs : List String) (tabs : List TabItem) : List TabItem :=
  cs.foldl (fun tb c => registerContentTabs c tb) tabs

/-- `TabsTrigger`'s click handler (App.tsx lines 152-159): look the trigger up
in the registry; only when its slot carries a truthy contentId is the active
selection replaced by it. -/
def tabsTriggerClick (tabs : List TabItem) (triggerId : String)
    (active : Option String) : Option String :=
  match tabs.find? (fun tab => tab.id = triggerId) with
  | none => active
  | some myTab =>
    match myTab.contentId with
    | none => active
    | some c => if c = "" then active else some c

/-- `TabsNavigate.handlePrev` (App.tsx lines 175-190), guarded by the
component rendering nothing when the active selection is falsy (line 173). -/
def navPrev (tabs : List TabItem) (active : Option String) : Option String :=
  match active with
  | none => none
  | some a =>
    if a = "" then some a
    else
      match tabs.findIdx? (fun tab => tab.contentId = some a) with
      | none => some a
      | some i =>
        if i = 0 then
          match tabs.getLast? with
          | none => some a
          | some lastTab =>
            match lastTab.contentId with
            | none => some a
            | some c => if c = "" then some a else some c
        else
          match tabs.get? (i - 1) with
          | none => some a
          | some prevTab =>
            match prevTab.contentId with
            | none => some a
            | some c => if c = "" then some a else some c

/-- `TabsNavigate.handleNext` (App.tsx lines 192-207), guarded the same way. -/
def navNext (tabs : List TabItem) (active : Option String) : Option String :=
  match active with
  | none => none
  | some a =>
    if a = "" then some a
    else
      match tabs.findIdx? (fun tab => tab.contentId = some a) with
      | none => some a
      | some i =>
        if i = tabs.length - 1 then
          match tabs.get? 0 with
          | none => some a
          | some firstTab =>
            match firstTab.contentId with
            | none => some a
            | some c => if c = "" then some a else some c
        else
          match tabs.get? (i + 1) with
          | none => some a
          | some nextTab =>
            match nextTab.contentId with
            | none => some a
            | some c => if c = "" then some a else some c

end Tabs

namespace CtrlTabs

/-- `setValue` of the keyed `RootTabs` variant (part_000 lines 34-48).
`controlledValue` is the optional `value` prop (`isControlled` iff present),
`internalValue` the uncontrolled state.  Returns the list of `onChange`
invocations together with the new internal state. -/
def setValue (controlledValue : Option String) (internalValue : String)
    (newValue : String) : List String × String :=
  let activeKey := match controlledValue with
    | some v => v
    | none => internalValue
  if newValue = activeKey then ([], internalValue)
  else
    match controlledValue with
    | some _ => ([newValue], internalValue)
    | none => ([], newValue)

end CtrlTabs

namespace Accordion

/-- One item of the Accordion registry (`AccordionItem` in App.tsx). -/
structure AccordionItem where
  id : String
  contentId : Option String
deriving Repr, DecidableEq

/-- `AccordionTrigger`'s click handler (App.tsx lines 461-470): when the
trigger's item carries a truthy contentId, clicking toggles it off if it is
the active one and activates it otherwise. -/
def accordionClick (items : List AccordionItem) (triggerId : String)
    (active : Option String) : Option String :=
  match items.find? (fun item => item.id = triggerId) with
  | none => active
  | some myItem =>
    match myItem.contentId with
    | none => active
    | some c =>
      if c = "" then active
      else if some c = active then none else some c

end Accordion

namespace Modal

/-- The Escape listener of `ModalContent` (App.tsx lines 293-304) is attached
exactly while the modal is open. -/
def escListenerAttached (isOpen : Bool) : Bool := isOpen

/-- Effect of one keydown event on the modal's open state: the handler runs
only while the listener is attached, and closes the modal on `Escape`. -/
def modalKeyStep (isOpen : Bool) (key : String) : Bool :=
  if escListenerAttached isOpen then
    if key = "Escape" then false else isOpen
  else isOpen

end Modal

/-- C6: in controlled Tabs mode, `setValue x` at current controlled value `x`
invokes the change callback zero times; `setValue y` with `y ≠ x` invokes it
exactly once with `y`; the internal state is untouched in both cases. -/
theorem C6_controlled_setValue (x internalValue y : String) :
    CtrlTabs.setValue (some x) internalValue x = ([], internalValue) ∧
    (y ≠ x → CtrlTabs.setValue (some x) internalValue y = ([y], internalValue)) := by
  constructor
  · simp [CtrlTabs.setValue]
  · intro h
    simp [CtrlTabs.setValue, h]

/-- Witness for C6 at concrete inputs. -/
theorem C6_controlled_setValue_witness :
    (CtrlTabs.setValue (some "1") "0" "1" = ([], "0") ∧
      ("2" ≠ "1" → CtrlTabs.setValue (some "1") "0" "2" = (["2"], "0"))) ∧
    CtrlTabs.setValue (some "1") "0" "2" = (["2"], "0") := by
  refine ⟨C6_controlled_setValue "1" "0" "2", ?_⟩
  exact (C6_controlled_setValue "1" "0" "2").2 (by decide)

/-- C9: an Escape press while the modal is closed leaves it closed (the
listener is not even attached then); an Escape press while open closes it;
once closed, no sequence of further key events reopens it or invokes the
handler to any effect. -/
theorem C9_modal_escape :
    (∀ k, Modal.modalKeyStep false k = false) ∧
    Modal.modalKeyStep true "Escape" = false ∧
    Modal.escListenerAttached false = false ∧
    Modal.escListenerAttached (Modal.modalKeyStep true "Escape") = false ∧
    ∀ keys : List String, keys.foldl Modal.modalKeyStep false = false := by
  refine ⟨fun k => rfl, rfl, rfl, rfl, ?_⟩
  intro keys
  induction keys with
  | nil => rfl
  | cons k ks ih => simpa [Modal.modalKeyStep, Modal.escListenerAttached] using ih

/-- The claim of C3 fails on the code: from the empty initial state,
`registerContent "c"` fails to bind (the slot list stays empty) yet the
active-selection updater still runs and makes `"c"` the active selection. -/
theorem C3_cex_failed_bind_becomes_active :
    (Tabs.registerContent "c" Tabs.initState).tabs = Tabs.initState.tabs ∧
    (Tabs.registerContent "c" Tabs.initState).activeContentId = some "c" ∧
    Tabs.initState.activeContentId = none := by
  refine ⟨rfl, rfl, rfl⟩

/-- C3 (amended): in uncontrolled mode the active selection is initialized by
the first `registerContent` call — successful or not — whenever the current
selection is unset; a registration while a (nonempty) selection is already
set never changes it. -/
theorem C3_first_content_seeds_active (s : Tabs.TabsState) (c : String) :
    (s.activeContentId = none →
      (Tabs.registerContent c s).activeContentId = some c) ∧
    (∀ a, s.activeContentId = some a → a ≠ "" →
      (Tabs.registerContent c s).activeContentId = some a) := by
  constructor
  · intro h
    simp [Tabs.registerContent, strFalsy, h]
  · intro a ha hne
    simp [Tabs.registerContent, strFalsy, ha, hne]

/-- Witness for C3's amended theorem at concrete inputs. -/
theorem C3_first_content_seeds_active_witness :
    (Tabs.registerContent "c" Tabs.initState).activeContentId = some "c" ∧
    (Tabs.registerContent "d" ⟨[], some "c"⟩).activeContentId = some "c" := by
  refine ⟨(C3_first_content_seeds_active Tabs.initState "c").1 rfl, ?_⟩
  exact (C3_first_content_seeds_active ⟨[], some "c"⟩ "d").2 "c" rfl (by decide)

/-- C4: every registry operation is a no-op on constraint violation, leaving
the slot list unchanged: duplicate triggerId on register, already-bound
contentId or no free slot on content registration, and absent identifiers on
both unregister operations.  (All four operations are total functions; no
error path exists.) -/
theorem C4_noop_on_violation (s : Tabs.TabsState) (t c : String) :
    ((∃ x ∈ s.tabs, x.id = t) → Tabs.registerTrigger t s = s) ∧
    ((∃ x ∈ s.tabs, x.contentId = some c) →
      (Tabs.registerContent c s).tabs = s.tabs) ∧
    ((∀ x ∈ s.tabs, x.contentId ≠ none) →
      (Tabs.registerContent c s).tabs = s.tabs) ∧
    ((∀ x ∈ s.tabs, x.id ≠ t) → Tabs.unregisterTrigger t s = s) ∧
    ((∀ x ∈ s.tabs, x.contentId ≠ some c) → Tabs.unregisterContent c s = s) := by
  refine ⟨?_, ?_, ?_, ?_, ?_⟩
  · rintro ⟨x, hx, hid⟩
    have hfound : (s.tabs.find? (fun tab => tab.id = t)).isSome := by
      rw [List.find?_isSome]
      exact ⟨x, hx, by simp [hid]⟩
    simp [Tabs.registerTrigger, Tabs.registerTriggerTabs, hfound]
  · rintro ⟨x, hx, hcid⟩
    have hany : s.tabs.any (fun tab => tab.contentId = some c) = true := by
      rw [List.any_eq_true]
      exact ⟨x, hx, by simp [hcid]⟩
    simp [Tabs.registerContent, Tabs.registerContentTabs, hany]
  · intro h
    by_cases hany : s.tabs.any (fun tab => tab.contentId = some c) = true
    · simp [Tabs.registerContent, Tabs.registerContentTabs, hany]
    · have hnone : s.tabs.find? (fun tab => tab.contentId = none) = none := by
        rw [List.find?_eq_none]
        intro x hx
        simp [h x hx]
      simp [Tabs.registerContent, Tabs.registerContentTabs, hany, hnone]
  · intro h
    cases s with
    | mk tabs act =>
      simp only [Tabs.unregisterTrigger, Tabs.TabsState.mk.injEq, and_true]
      refine List.filter_eq_self.mpr ?_
      intro x hx
      simp [h x hx]
  · intro h
    cases s with
    | mk tabs act =>
      simp only [Tabs.unregisterContent, Tabs.TabsState.mk.injEq, and_true]
      have hcongr : ∀ x ∈ tabs,
          (if x.contentId = some c then { x with contentId := none } else x) = id x := by
        intro x hx
        simp [h x hx]
      rw [List.map_congr_left hcongr, List.map_id]

/-- Witness for C4: at a concrete one-slot state every violating operation
returns the slot list (and for unregister, the whole state) unchanged. -/
theorem C4_noop_on_violation_witness :
    Tabs.registerTrigger "t" ⟨[⟨"t", some "c", some false⟩], some "c"⟩ =
      ⟨[⟨"t", some "c", some false⟩], some "c"⟩ ∧
    (Tabs.registerContent "c" ⟨[⟨"t", some "c", some false⟩], some "c"⟩).tabs =
      [⟨"t", some "c", some false⟩] ∧
    Tabs.unregisterTrigger "u" ⟨[⟨"t", some "c", some false⟩], some "c"⟩ =
      ⟨[⟨"t", some "c", some false⟩], some "c"⟩ ∧
    Tabs.unregisterContent "d" ⟨[⟨"t", some "c", some false⟩], some "c"⟩ =
      ⟨[⟨"t", some "c", some false⟩], some "c"⟩ := by
  refine ⟨(C4_noop_on_violation _ "t" "c").1
      ⟨⟨"t", some "c", some false⟩, by simp, rfl⟩,
    (C4_noop_on_violation _ "t" "c").2.1
      ⟨⟨"t", some "c", some false⟩, by simp, rfl⟩,
    (C4_noop_on_violation _ "u" "c").2.2.2.1 ?_,
    (C4_noop_on_violation _ "t" "d").2.2.2.2 ?_⟩ <;> decide

/-- C8: when an Accordion trigger's item carries a bound (truthy) contentId,
clicking it clears the active selection if that contentId is the active one,
and otherwise makes it the active selection (deactivating whatever was active
before — only one identifier is tracked). -/
theorem C8_accordion_toggle (items : List Accordion.AccordionItem)
    (t c : String) (active : Option String)
    (hfind : items.find? (fun item => item.id = t) = some ⟨t, some c⟩)
    (hc : c ≠ "") :
    (active = some c → Accordion.accordionClick items t active = none) ∧
    (active ≠ some c → Accordion.accordionClick items t active = some c) := by
  unfold Accordion.accordionClick
  rw [hfind]
  constructor
  · intro h
    subst h
    simp [hc]
  · intro h
    have : ¬ (some c = active) := fun hh => h hh.symm
    simp [hc, this]

/-- Witness for C8 at a concrete one-item registry. -/
theorem C8_accordion_toggle_witness :
    Accordion.accordionClick [⟨"t", some "c"⟩] "t" (some "c") = none ∧
    Accordion.accordionClick [⟨"t", some "c"⟩] "t" (some "b") = some "c" := by
  refine ⟨(C8_accordion_toggle [⟨"t", some "c"⟩] "t" "c" (some "c") ?_ ?_).1 rfl,
    (C8_accordion_toggle [⟨"t", some "c"⟩] "t" "c" (some "b") ?_ ?_).2 ?_⟩ <;> decide

/-- C10: clicking a trigger whose slot has no bound contentId — or a trigger
absent from the registry — leaves the active selection unchanged, in both the
registration-based Tabs variant and the Accordion. -/
theorem C10_unbound_click_frame (tabs : List Tabs.TabItem)
    (items : List Accordion.AccordionItem) (t : String) (active : Option String) :
    (tabs.find? (fun tab => tab.id = t) = none →
      Tabs.tabsTriggerClick tabs t active = active) ∧
    (∀ x, tabs.find? (fun tab => tab.id = t) = some x → x.contentId = none →
      Tabs.tabsTriggerClick tabs t active = active) ∧
    (items.find? (fun item => item.id = t) = none →
      Accordion.accordionClick items t active = active) ∧
    (∀ y, items.find? (fun item => item.id = t) = some y → y.contentId = none →
      Accordion.accordionClick items t active = active) := by
  refine ⟨?_, ?_, ?_, ?_⟩
  · intro h
    unfold Tabs.tabsTriggerClick
    rw [h]
  · intro x hx hcid
    unfold Tabs.tabsTriggerClick
    rw [hx]
    simp [hcid]
  · intro h
    unfold Accordion.accordionClick
    rw [h]
  · intro y hy hcid
    unfold Accordion.accordionClick
    rw [hy]
    simp [hcid]

/-- Witness for C10 at concrete registries: an unbound slot and an absent
trigger id both leave the active selection alone. -/
theorem C10_unbound_click_frame_witness :
    Tabs.tabsTriggerClick [⟨"t", none, some false⟩] "t" (some "a") = some "a" ∧
    Tabs.tabsTriggerClick [⟨"t", none, some false⟩] "u" (some "a") = some "a" ∧
    Accordion.accordionClick [⟨"t", none⟩] "t" (some "a") = some "a" ∧
    Accordion.accordionClick [⟨"t", none⟩] "u" (some "a") = some "a" := by
  refine ⟨(C10_unbound_click_frame [⟨"t", none, some false⟩] [⟨"t", none⟩] "t"
      (some "a")).2.1 ⟨"t", none, some false⟩ ?_ rfl,
    (C10_unbound_click_frame [⟨"t", none, some false⟩] [⟨"t", none⟩] "u"
      (some "a")).1 ?_,
    (C10_unbound_click_frame [⟨"t", none, some false⟩] [⟨"t", none⟩] "t"
      (some "a")).2.2.2 ⟨"t", none⟩ ?_ rfl,
    (C10_unbound_click_frame [⟨"t", none, some false⟩] [⟨"t", none⟩] "u"
      (some "a")).2.2.1 ?_⟩ <;> decide

/-- C7: navigation wraps at the ends of the registry order — on slots
[A,B,C] bound to [a,b,c], "previous" from a goes to c and "next" from c goes
to a; interior positions move by one slot; when no slot's contentId equals
the active identifier, or no content is active at all, both operations leave
the selection unchanged. -/
theorem C7_navigation_wrap (A B C a b c : String)
    (hab : a ≠ b) (hac : a ≠ c) (hbc : b ≠ c)
    (ha : a ≠ "") (hb : b ≠ "") (hc : c ≠ "") :
    Tabs.navPrev [⟨A, some a, some false⟩, ⟨B, some b, some false⟩,
      ⟨C, some c, some false⟩] (some a) = some c ∧
    Tabs.navNext [⟨A, some a, some false⟩, ⟨B, some b, some false⟩,
      ⟨C, some c, some false⟩] (some c) = some a ∧
    Tabs.navPrev [⟨A, some a, some false⟩, ⟨B, some b, some false⟩,
      ⟨C, some c, some false⟩] (some b) = some a ∧
    Tabs.navNext [⟨A, some a, some false⟩, ⟨B, some b, some false⟩,
      ⟨C, some c, some false⟩] (some b) = some c ∧
    Tabs.navPrev [⟨A, some a, some false⟩, ⟨B, some b, some false⟩,
      ⟨C, some c, some false⟩] (some c) = some b ∧
    Tabs.navNext [⟨A, some a, some false⟩, ⟨B, some b, some false⟩,
      ⟨C, some c, some false⟩] (some a) = some b ∧
    (∀ tbs act, act ≠ "" → (∀ x ∈ tbs, x.contentId ≠ some act) →
      Tabs.navPrev tbs (some act) = some act ∧
      Tabs.navNext tbs (some act) = some act) ∧
    (∀ tbs, Tabs.navPrev tbs none = none ∧ Tabs.navNext tbs none = none) := by
  refine ⟨?_, ?_, ?_, ?_, ?_, ?_, ?_, ?_⟩
  · simp [Tabs.navPrev, ha, hc, List.findIdx?_cons, List.getLast?]
  · simp [Tabs.navNext, ha, hc, hac, hbc, List.findIdx?_cons]
  · simp [Tabs.navPrev, ha, hb, hab, List.findIdx?_cons]
  · simp [Tabs.navNext, hb, hc, hab, List.findIdx?_cons]
  · simp [Tabs.navPrev, hb, hc, hac, hbc, List.findIdx?_cons]
  · simp [Tabs.navNext, ha, hb, List.findIdx?_cons]
  · intro tbs act hact h
    have hnone : tbs.findIdx? (fun tab => tab.contentId = some act) = none := by
      rw [List.findIdx?_eq_none_iff]
      intro x hx
      simp [h x hx]
    constructor
    · simp [Tabs.navPrev, hact, hnone]
    · simp [Tabs.navNext, hact, hnone]
  · intro tbs
    exact ⟨rfl, rfl⟩

/-- Witness for C7 at concrete slots and contents. -/
theorem C7_navigation_wrap_witness :
    Tabs.navPrev [⟨"A", some "a", some false⟩, ⟨"B", some "b", some false⟩,
      ⟨"C", some "c", some false⟩] (some "a") = some "c" ∧
    Tabs.navNext [⟨"A", some "a", some false⟩, ⟨"B", some "b", some false⟩,
      ⟨"C", some "c", some false⟩] (some "c") = some "a" := by
  refine ⟨(C7_navigation_wrap "A" "B" "C" "a" "b" "c" ?_ ?_ ?_ ?_ ?_ ?_).1,
    (C7_navigation_wrap "A" "B" "C" "a" "b" "c" ?_ ?_ ?_ ?_ ?_ ?_).2.1⟩ <;> decide

/-- Registering a list of pairwise-fresh trigger ids appends one free slot
per id, in order. -/
theorem runTriggerRegs_fresh (ts : List String) :
    ∀ acc : List Tabs.TabItem, (∀ t ∈ ts, ∀ x ∈ acc, x.id ≠ t) → ts.Nodup →
    Tabs.runTriggerRegs ts acc = acc ++ ts.map Tabs.mkFree := by
  induction ts with
  | nil =>
    intro acc _ _
    simp [Tabs.runTriggerRegs]
  | cons t ts ih =>
    intro acc hfresh hnd
    have hn : acc.find? (fun tab => tab.id = t) = none := by
      rw [List.find?_eq_none]
      intro x hx
      simp [hfresh t (List.mem_cons_self t ts) x hx]
    have hstep : Tabs.registerTriggerTabs t acc = acc ++ [Tabs.mkFree t] := by
      simp [Tabs.registerTriggerTabs, hn, Tabs.mkFree]
    have hfresh' : ∀ u ∈ ts, ∀ x ∈ acc ++ [Tabs.mkFree t], x.id ≠ u := by
      intro u hu x hx
      rcases List.mem_append.mp hx with hx | hx
      · exact hfresh u (List.mem_cons_of_mem _ hu) x hx
      · have hxe : x = Tabs.mkFree t := List.mem_singleton.mp hx
        subst hxe
        show t ≠ u
        intro heq
        exact (List.nodup_cons.mp hnd).1 (heq ▸ hu)
    have hrun : Tabs.runTriggerRegs (t :: ts) acc
        = Tabs.runTriggerRegs ts (Tabs.registerTriggerTabs t acc) := rfl
    rw [hrun, hstep, ih (acc ++ [Tabs.mkFree t]) hfresh' (List.nodup_cons.mp hnd).2]
    simp

/-- Core of positional matching: starting from bound pairs `done` followed by
free triggers `pending`, registering fresh, pairwise-distinct content ids
binds them to the pending triggers in order. -/
theorem runContentRegs_shape (cs : List String) :
    ∀ (done : List (String × String)) (pending : List String),
    (done.map Prod.fst ++ pending).Nodup →
    (∀ c ∈ cs, ∀ q ∈ done, q.2 ≠ c) →
    cs.Nodup →
    cs.length ≤ pending.length →
    Tabs.runContentRegs cs (Tabs.shape done pending)
      = Tabs.shape (done ++ pending.zip cs) (pending.drop cs.length) := by
  induction cs with
  | nil =>
    intro done pending _ _ _ _
    simp [Tabs.runContentRegs, Tabs.shape]
  | cons c cs ih =>
    intro done pending hids hfresh hnd hlen
    cases pending with
    | nil => simp at hlen
    | cons p ps =>
      have hsplit := List.nodup_append.mp hids
      have hpnotdone : p ∉ done.map Prod.fst := by
        intro hmem
        exact hsplit.2.2 hmem (List.mem_cons_self p ps)
      have hpnotps : p ∉ ps := (List.nodup_cons.mp hsplit.2.1).1
      have hany : ¬((Tabs.shape done (p :: ps)).any
          (fun tab => tab.contentId = some c) = true) := by
        rw [Bool.not_eq_true, List.any_eq_false]
        intro x hx
        rcases List.mem_append.mp hx with hx | hx
        · rcases List.mem_map.mp hx with ⟨q, hq, rfl⟩
          simpa [Tabs.mkBound] using hfresh c (List.mem_cons_self c cs) q hq
        · rcases List.mem_map.mp hx with ⟨u, _, rfl⟩
          simp [Tabs.mkFree]
      have hfind : (Tabs.shape done (p :: ps)).find?
          (fun tab => tab.contentId = none) = some (Tabs.mkFree p) := by
        unfold Tabs.shape
        rw [List.find?_append]
        have h1 : (done.map Tabs.mkBound).find?
            (fun tab => tab.contentId = none) = none := by
          rw [List.find?_eq_none]
          intro x hx
          rcases List.mem_map.mp hx with ⟨q, _, rfl⟩
          simp [Tabs.mkBound]
        rw [h1]
        simp [Tabs.mkFree]
      have hstep : Tabs.registerContentTabs c (Tabs.shape done (p :: ps))
          = Tabs.shape (done ++ [(p, c)]) ps := by
        unfold Tabs.registerContentTabs
        rw [if_neg hany, hfind]
        show (Tabs.shape done (p :: ps)).map (fun tab =>
            if tab.id = (Tabs.mkFree p).id then { tab with contentId := some c }
            else tab) = Tabs.shape (done ++ [(p, c)]) ps
        have hdone : ∀ x ∈ done.map Tabs.mkBound,
            (if x.id = (Tabs.mkFree p).id then { x with contentId := some c } else x)
              = id x := by
          intro x hx
          rcases List.mem_map.mp hx with ⟨q, hq, rfl⟩
          have hne : q.1 ≠ p := fun heq =>
            hpnotdone (heq ▸ List.mem_map_of_mem Prod.fst hq)
          simp [Tabs.mkBound, Tabs.mkFree, hne]
        have hps : ∀ x ∈ ps.map Tabs.mkFree,
            (if x.id = (Tabs.mkFree p).id then { x with contentId := some c } else x)
              = id x := by
          intro x hx
          rcases List.mem_map.mp hx with ⟨u, hu, rfl⟩
          have hne : u ≠ p := fun heq => hpnotps (heq ▸ hu)
          simp [Tabs.mkFree, hne]
        have e1 : (done.map Tabs.mkBound).map (fun tab =>
            if tab.id = (Tabs.mkFree p).id then { tab with contentId := some c }
            else tab) = done.map Tabs.mkBound := by
          rw [List.map_congr_left hdone, List.map_id]
        have e2 : ((p :: ps).map Tabs.mkFree).map (fun tab =>
            if tab.id = (Tabs.mkFree p).id then { tab with contentId := some c }
            else tab) = Tabs.mkBound (p, c) :: ps.map Tabs.mkFree := by
          rw [List.map_cons, List.map_cons]
          congr 1
          · simp [Tabs.mkFree, Tabs.mkBound]
          · rw [List.map_congr_left hps, List.map_id]
        unfold Tabs.shape
        rw [List.map_append, e1, e2, List.map_append]
        simp
      have hids' : ((done ++ [(p, c)]).map Prod.fst ++ ps).Nodup := by
        rw [List.map_append]
        simpa using hids
      have hfresh' : ∀ c' ∈ cs, ∀ q ∈ done ++ [(p, c)], q.2 ≠ c' := by
        intro c' hc' q hq
        rcases List.mem_append.mp hq with hq | hq
        · exact hfresh c' (List.mem_cons_of_mem _ hc') q hq
        · have hqe : q = (p, c) := List.mem_singleton.mp hq
          subst hqe
          show c ≠ c'
          intro heq
          exact (List.nodup_cons.mp hnd).1 (heq ▸ hc')
      have hnd' := (List.nodup_cons.mp hnd).2
      have hlen' : cs.length ≤ ps.length := by simpa using hlen
      have hrc : Tabs.runContentRegs (c :: cs) (Tabs.shape done (p :: ps))
          = Tabs.runContentRegs cs (Tabs.registerContentTabs c (Tabs.shape done (p :: ps))) :=
        rfl
      rw [hrc, hstep, ih (done ++ [(p, c)]) ps hids' hfresh' hnd' hlen']
      simp [Tabs.shape]

/-- Folding full-state trigger registrations projects to the slot-list fold. -/
theorem foldRegisterTrigger_tabs (ts : List String) :
    ∀ s : Tabs.TabsState,
    (ts.foldl (fun s t => Tabs.registerTrigger t s) s).tabs
      = Tabs.runTriggerRegs ts s.tabs := by
  induction ts with
  | nil => intro s; rfl
  | cons t ts ih =>
    intro s
    exact ih (Tabs.registerTrigger t s)

/-- Folding full-state content registrations projects to the slot-list fold. -/
theorem foldRegisterContent_tabs (cs : List String) :
    ∀ s : Tabs.TabsState,
    (cs.foldl (fun s c => Tabs.registerContent c s) s).tabs
      = Tabs.runContentRegs cs s.tabs := by
  induction cs with
  | nil => intro s; rfl
  | cons c cs ih =>
    intro s
    exact ih (Tabs.registerContent c s)

/-- Mapping `mkBound` over a zip is the corresponding zipWith. -/
theorem zip_map_mkBound (ts : List String) :
    ∀ cs : List String, (ts.zip cs).map Tabs.mkBound
      = ts.zipWith (fun t c => Tabs.TabItem.mk t (some c) (some false)) cs := by
  induction ts with
  | nil => intro cs; simp
  | cons t ts ih =>
    intro cs
    cases cs with
    | nil => simp
    | cons c cs => simp [Tabs.mkBound, ih]

/-- C1: from the empty registry, registering N distinct triggers and then N
distinct contents binds the k-th content to the k-th trigger's slot — the
final slot list is exactly the ordinal pairing of triggers with contents. -/
theorem C1_positional_binding (ts cs : List String)
    (hts : ts.Nodup) (hcs : cs.Nodup) (hlen : ts.length = cs.length) :
    (cs.foldl (fun s c => Tabs.registerContent c s)
        (ts.foldl (fun s t => Tabs.registerTrigger t s) Tabs.initState)).tabs
      = ts.zipWith (fun t c => Tabs.TabItem.mk t (some c) (some false)) cs := by
  have h1 : (ts.foldl (fun s t => Tabs.registerTrigger t s) Tabs.initState).tabs
      = Tabs.shape [] ts := by
    rw [foldRegisterTrigger_tabs]
    have h := runTriggerRegs_fresh ts []
      (by intro t _ x hx; simp at hx) hts
    simpa [Tabs.initState, Tabs.shape] using h
  rw [foldRegisterContent_tabs, h1]
  have h2 := runContentRegs_shape cs [] ts (by simpa using hts)
    (by intro c _ q hq; simp at hq) hcs (le_of_eq hlen.symm)
  rw [h2, ← hlen, List.drop_length]
  simpa [Tabs.shape] using zip_map_mkBound ts cs

/-- Witness for C1 with two triggers and two contents. -/
theorem C1_positional_binding_witness :
    (["c1", "c2"].foldl (fun s c => Tabs.registerContent c s)
        (["t1", "t2"].foldl (fun s t => Tabs.registerTrigger t s) Tabs.initState)).tabs
      = ["t1", "t2"].zipWith (fun t c => Tabs.TabItem.mk t (some c) (some false))
          ["c1", "c2"] :=
  C1_positional_binding ["t1", "t2"] ["c1", "c2"] (by decide) (by decide) rfl

/-- A successful `find?` splits the list at the first satisfying element. -/
theorem genFindDecomp {α : Type} (p : α → Bool) (l : List α) (a : α)
    (h : l.find? p = some a) :
    ∃ pre post, l = pre ++ a :: post ∧ ∀ x ∈ pre, ¬ p x := by
  induction l with
  | nil => simp at h
  | cons x xs ih =>
    by_cases hx : p x
    · rw [List.find?_cons_of_pos _ hx] at h
      obtain rfl : x = a := Option.some.inj h
      exact ⟨[], xs, rfl, by simp⟩
    · rw [List.find?_cons_of_neg _ hx] at h
      obtain ⟨pre, post, rfl, hpre⟩ := ih h
      refine ⟨x :: pre, post, rfl, ?_⟩
      intro y hy
      rcases List.mem_cons.mp hy with rfl | hy
      · exact hx
      · exact hpre y hy

/-- Binding a content never changes the sequence of trigger ids. -/
theorem registerContentTabs_ids (c : String) (tabs : List Tabs.TabItem) :
    (Tabs.registerContentTabs c tabs).map (fun x => x.id)
      = tabs.map (fun x => x.id) := by
  unfold Tabs.registerContentTabs
  split
  · rfl
  · split
    · rfl
    · next u _ =>
      rw [List.map_map]
      refine List.map_congr_left ?_
      intro x _
      by_cases h : x.id = u.id <;> simp [h]

/-- Clearing a content never changes the sequence of trigger ids. -/
theorem unregisterContent_ids (c : String) (s : Tabs.TabsState) :
    (Tabs.unregisterContent c s).tabs.map (fun x => x.id)
      = s.tabs.map (fun x => x.id) := by
  show (s.tabs.map _).map _ = _
  rw [List.map_map]
  refine List.map_congr_left ?_
  intro x _
  by_cases h : x.contentId = some c <;> simp [h]

/-- Registering a trigger never changes the bound contents. -/
theorem registerTriggerTabs_bound (id : String) (tabs : List Tabs.TabItem) :
    Tabs.boundContents (Tabs.registerTriggerTabs id tabs)
      = Tabs.boundContents tabs := by
  unfold Tabs.registerTriggerTabs
  split
  · rfl
  · simp [Tabs.boundContents, List.filterMap_append]

/-- Registering a trigger preserves uniqueness of trigger ids. -/
theorem registerTriggerTabs_ids_nodup (id : String) (tabs : List Tabs.TabItem)
    (h : (tabs.map (fun x => x.id)).Nodup) :
    ((Tabs.registerTriggerTabs id tabs).map (fun x => x.id)).Nodup := by
  unfold Tabs.registerTriggerTabs
  split
  · exact h
  · next hfind =>
    have hid : ∀ x ∈ tabs, x.id ≠ id := by
      intro x hx heq
      exact hfind (List.find?_isSome.mpr ⟨x, hx, by simp [heq]⟩)
    rw [List.map_append]
    rw [List.nodup_append]
    refine ⟨h, by simp, ?_⟩
    intro a ha hb
    have hae : a = id := by simpa using hb
    subst hae
    rcases List.mem_map.mp ha with ⟨x, hx, hxa⟩
    exact hid x hx hxa

/-- With unique trigger ids, the bind-map of `registerContent` rewrites only
the found slot. -/
theorem map_setContent (c : String) (pre post : List Tabs.TabItem)
    (u : Tabs.TabItem)
    (hids : ((pre ++ u :: post).map (fun x => x.id)).Nodup) :
    (pre ++ u :: post).map (fun tab =>
        if tab.id = u.id then { tab with contentId := some c } else tab)
      = pre ++ { u with contentId := some c } :: post := by
  rw [List.map_append, List.map_cons] at hids
  have hsplit := List.nodup_append.mp hids
  have hpre : ∀ x ∈ pre, x.id ≠ u.id := by
    intro x hx heq
    exact hsplit.2.2 (List.mem_map_of_mem _ hx) (heq ▸ List.mem_cons_self _ _)
  have hpost : ∀ x ∈ post, x.id ≠ u.id := by
    intro x hx heq
    exact (List.nodup_cons.mp hsplit.2.1).1 (heq ▸ List.mem_map_of_mem _ hx)
  rw [List.map_append, List.map_cons]
  congr 1
  · rw [List.map_congr_left (fun x hx => by simp [hpre x hx] : ∀ x ∈ pre, _ = id x),
      List.map_id]
  · congr 1
    · simp
    · rw [List.map_congr_left (fun x hx => by simp [hpost x hx] : ∀ x ∈ post, _ = id x),
        List.map_id]

/-- Binding a fresh content preserves uniqueness of bound contents. -/
theorem registerContentTabs_bound_nodup (c : String) (tabs : List Tabs.TabItem)
    (hids : (tabs.map (fun x => x.id)).Nodup)
    (hbc : (Tabs.boundContents tabs).Nodup) :
    (Tabs.boundContents (Tabs.registerContentTabs c tabs)).Nodup := by
  unfold Tabs.registerContentTabs
  split
  · exact hbc
  · next hany =>
    split
    · exact hbc
    · next u hfind =>
      have hufree : u.contentId = none := by
        have hp := List.find?_some hfind
        simpa using hp
      obtain ⟨pre, post, heq, _⟩ := genFindDecomp _ _ _ hfind
      subst heq
      rw [map_setContent c pre post u hids]
      have hbc_eq : Tabs.boundContents (pre ++ u :: post)
          = Tabs.boundContents pre ++ Tabs.boundContents post := by
        unfold Tabs.boundContents
        rw [List.filterMap_append, List.filterMap_cons_none hufree]
      have hgoal_eq : Tabs.boundContents (pre ++ { u with contentId := some c } :: post)
          = Tabs.boundContents pre ++ c :: Tabs.boundContents post := by
        unfold Tabs.boundContents
        rw [List.filterMap_append, List.filterMap_cons_some
          (show ({ u with contentId := some c } : Tabs.TabItem).contentId = some c
            from rfl)]
      rw [hbc_eq] at hbc
      have hcnot : c ∉ Tabs.boundContents pre ++ Tabs.boundContents post := by
        intro hmem
        apply hany
        rw [List.any_eq_true]
        have hx : ∃ x, (x ∈ pre ∨ x ∈ post) ∧ x.contentId = some c := by
          rcases List.mem_append.mp hmem with hm | hm
          · rcases List.mem_filterMap.mp hm with ⟨x, hx, hxc⟩
            exact ⟨x, Or.inl hx, hxc⟩
          · rcases List.mem_filterMap.mp hm with ⟨x, hx, hxc⟩
            exact ⟨x, Or.inr hx, hxc⟩
        obtain ⟨x, hx, hxc⟩ := hx
        refine ⟨x, ?_, by simp [hxc]⟩
        rcases hx with hx | hx
        · exact List.mem_append.mpr (Or.inl hx)
        · exact List.mem_append.mpr (Or.inr (List.mem_cons_of_mem _ hx))
      rw [hgoal_eq, List.nodup_middle, List.nodup_cons]
      exact ⟨hcnot, hbc⟩

/-- Clearing one content id yields a sublist of the bound contents. -/
theorem clearContent_bound_sublist (c : String) (tabs : List Tabs.TabItem) :
    (Tabs.boundContents (tabs.map (fun tab =>
        if tab.contentId = some c then { tab with contentId := none }
        else tab))).Sublist (Tabs.boundContents tabs) := by
  induction tabs with
  | nil => simp [Tabs.boundContents]
  | cons x xs ih =>
    rw [List.map_cons]
    by_cases h : x.contentId = some c
    · rw [if_pos h]
      unfold Tabs.boundContents
      rw [List.filterMap_cons_none rfl, List.filterMap_cons_some h]
      exact List.Sublist.cons c ih
    · rw [if_neg h]
      unfold Tabs.boundContents
      cases hx : x.contentId with
      | none =>
        rw [List.filterMap_cons_none hx, List.filterMap_cons_none hx]
        exact ih
      | some d =>
        rw [List.filterMap_cons_some hx, List.filterMap_cons_some hx]
        exact List.Sublist.cons₂ d ih

/-- Uniqueness of bound contents means each content id occupies at most one
slot. -/
theorem bound_count_le_one (tabs : List Tabs.TabItem)
    (h : (Tabs.boundContents tabs).Nodup) (cid : String) :
    (tabs.filter (fun x => x.contentId = some cid)).length ≤ 1 := by
  induction tabs with
  | nil => simp
  | cons x xs ih =>
    cases hx : x.contentId with
    | none =>
      have h' : (Tabs.boundContents xs).Nodup := by
        unfold Tabs.boundContents at h
        rwa [List.filterMap_cons_none hx] at h
      rw [List.filter_cons, if_neg (by simp [hx])]
      exact ih h'
    | some d =>
      unfold Tabs.boundContents at h
      rw [List.filterMap_cons_some hx] at h
      have hd := (List.nodup_cons.mp h).1
      have h' := (List.nodup_cons.mp h).2
      by_cases hdc : d = cid
      · subst hdc
        rw [List.filter_cons, if_pos (by simp [hx])]
        have hnil : xs.filter (fun x => x.contentId = some d) = [] := by
          rw [List.filter_eq_nil_iff]
          intro a ha hpa
          exact hd (List.mem_filterMap.mpr ⟨a, ha, by simpa using hpa⟩)
        simp [hnil]
      · rw [List.filter_cons, if_neg (by simp [hx, hdc])]
        exact ih h'

/-- Every reachable `RootTabs` state has unique trigger ids and unique bound
content ids. -/
theorem reachable_inv (s : Tabs.TabsState) (h : Tabs.Reachable s) :
    (s.tabs.map (fun x => x.id)).Nodup ∧ (Tabs.boundContents s.tabs).Nodup := by
  induction h with
  | init =>
    exact ⟨by simp [Tabs.initState], by simp [Tabs.initState, Tabs.boundContents]⟩
  | step s op _ ih =>
    cases op with
    | regTrigger id =>
      refine ⟨registerTriggerTabs_ids_nodup id s.tabs ih.1, ?_⟩
      show (Tabs.boundContents (Tabs.registerTriggerTabs id s.tabs)).Nodup
      rw [registerTriggerTabs_bound]
      exact ih.2
    | regContent c =>
      refine ⟨?_, registerContentTabs_bound_nodup c s.tabs ih.1 ih.2⟩
      show ((Tabs.registerContentTabs c s.tabs).map (fun x => x.id)).Nodup
      rw [registerContentTabs_ids]
      exact ih.1
    | unregTrigger id =>
      refine ⟨?_, ?_⟩
      · exact List.Nodup.sublist
          (List.Sublist.map _ (List.filter_sublist s.tabs)) ih.1
      · exact List.Nodup.sublist
          (List.Sublist.filterMap _ (List.filter_sublist s.tabs)) ih.2
    | unregContent c =>
      refine ⟨?_, ?_⟩
      · show ((Tabs.unregisterContent c s).tabs.map (fun x => x.id)).Nodup
        rw [unregisterContent_ids]
        exact ih.1
      · exact List.Nodup.sublist (clearContent_bound_sublist c s.tabs) ih.2

/-- Every single operation either keeps the trigger-id sequence as a sublist
(surviving slots keep their relative order) or appends exactly one new id at
the end. -/
theorem applyOp_order (s : Tabs.TabsState) (op : Tabs.RegOp) :
    ((Tabs.applyOp op s).tabs.map (fun x => x.id)).Sublist
      (s.tabs.map (fun x => x.id)) ∨
    ∃ i, (Tabs.applyOp op s).tabs.map (fun x => x.id)
      = s.tabs.map (fun x => x.id) ++ [i] := by
  cases op with
  | regTrigger id =>
    by_cases hf : (s.tabs.find? (fun tab => tab.id = id)).isSome
    · left
      show ((Tabs.registerTriggerTabs id s.tabs).map (fun x => x.id)).Sublist _
      unfold Tabs.registerTriggerTabs
      rw [if_pos hf]
    · right
      refine ⟨id, ?_⟩
      show (Tabs.registerTriggerTabs id s.tabs).map (fun x => x.id) = _
      unfold Tabs.registerTriggerTabs
      rw [if_neg hf, List.map_append]
      rfl
  | regContent c =>
    left
    show ((Tabs.registerContentTabs c s.tabs).map (fun x => x.id)).Sublist _
    rw [registerContentTabs_ids]
  | unregTrigger id =>
    left
    exact List.Sublist.map _ (List.filter_sublist s.tabs)
  | unregContent c =>
    left
    show ((Tabs.unregisterContent c s).tabs.map (fun x => x.id)).Sublist _
    rw [unregisterContent_ids]

/-- C2: in every reachable registry state trigger ids are unique and each
contentId is bound to at most one slot (the bound contents are duplicate
free), and every operation keeps the surviving slots' relative order — ids
either form a sublist of the previous sequence or extend it by one appended
id. -/
theorem C2_registry_invariants (s : Tabs.TabsState) (h : Tabs.Reachable s) :
    (s.tabs.map (fun x => x.id)).Nodup ∧
    (Tabs.boundContents s.tabs).Nodup ∧
    (∀ cid, (s.tabs.filter (fun x => x.contentId = some cid)).length ≤ 1) ∧
    ∀ op : Tabs.RegOp,
      ((Tabs.applyOp op s).tabs.map (fun x => x.id)).Sublist
        (s.tabs.map (fun x => x.id)) ∨
      ∃ i, (Tabs.applyOp op s).tabs.map (fun x => x.id)
        = s.tabs.map (fun x => x.id) ++ [i] :=
  ⟨(reachable_inv s h).1, (reachable_inv s h).2,
    fun cid => bound_count_le_one s.tabs (reachable_inv s h).2 cid,
    fun op => applyOp_order s op⟩

/-- Witness for C2 at the reachable state obtained by one trigger and one
content registration. -/
theorem C2_registry_invariants_witness :
    ((Tabs.applyOp (.regContent "c") (Tabs.applyOp (.regTrigger "t")
        Tabs.initState)).tabs.map (fun x => x.id)).Nodup ∧
    (Tabs.boundContents (Tabs.applyOp (.regContent "c")
        (Tabs.applyOp (.regTrigger "t") Tabs.initState)).tabs).Nodup ∧
    (∀ cid, ((Tabs.applyOp (.regContent "c") (Tabs.applyOp (.regTrigger "t")
        Tabs.initState)).tabs.filter
          (fun x => x.contentId = some cid)).length ≤ 1) ∧
    ∀ op : Tabs.RegOp,
      ((Tabs.applyOp op (Tabs.applyOp (.regContent "c")
          (Tabs.applyOp (.regTrigger "t") Tabs.initState))).tabs.map
            (fun x => x.id)).Sublist
        ((Tabs.applyOp (.regContent "c") (Tabs.applyOp (.regTrigger "t")
          Tabs.initState)).tabs.map (fun x => x.id)) ∨
      ∃ i, (Tabs.applyOp op (Tabs.applyOp (.regContent "c")
          (Tabs.applyOp (.regTrigger "t") Tabs.initState))).tabs.map
            (fun x => x.id)
        = (Tabs.applyOp (.regContent "c") (Tabs.applyOp (.regTrigger "t")
          Tabs.initState)).tabs.map (fun x => x.id) ++ [i] :=
  C2_registry_invariants _
    (Tabs.Reachable.step _ _ (Tabs.Reachable.step _ _ Tabs.Reachable.init))

/-- C5: in a reachable state, unregistering a present trigger id removes
exactly that one slot — the length drops by one, all other slots survive in
order — and a contentId bound to the removed slot stays unbound: no surviving
slot carries it. -/
theorem C5_unregister_trigger_exact (s : Tabs.TabsState) (t : String)
    (hreach : Tabs.Reachable s) (hmem : ∃ x ∈ s.tabs, x.id = t) :
    ∃ pre x post, s.tabs = pre ++ x :: post ∧ x.id = t ∧
      (Tabs.unregisterTrigger t s).tabs = pre ++ post ∧
      (Tabs.unregisterTrigger t s).tabs.length + 1 = s.tabs.length ∧
      ∀ c, x.contentId = some c → ∀ y ∈ pre ++ post, y.contentId ≠ some c := by
  obtain ⟨x, hx, hxid⟩ := hmem
  obtain ⟨pre, post, heq⟩ := List.append_of_mem hx
  have hinv := reachable_inv s hreach
  have hids := hinv.1
  have hbc := hinv.2
  rw [heq, List.map_append, List.map_cons] at hids
  have hsplit := List.nodup_append.mp hids
  have hpre : ∀ y ∈ pre, y.id ≠ x.id := by
    intro y hy hy2
    exact hsplit.2.2 (List.mem_map_of_mem _ hy) (hy2 ▸ List.mem_cons_self _ _)
  have hpost : ∀ y ∈ post, y.id ≠ x.id := by
    intro y hy hy2
    exact (List.nodup_cons.mp hsplit.2.1).1 (hy2 ▸ List.mem_map_of_mem _ hy)
  have htabs : (Tabs.unregisterTrigger t s).tabs = pre ++ post := by
    show s.tabs.filter (fun tab => tab.id ≠ t) = pre ++ post
    rw [heq, List.filter_append, List.filter_cons, if_neg (by simp [hxid])]
    congr 1
    · exact List.filter_eq_self.mpr (fun y hy => by simpa using hxid ▸ hpre y hy)
    · exact List.filter_eq_self.mpr (fun y hy => by simpa using hxid ▸ hpost y hy)
  refine ⟨pre, x, post, heq, hxid, htabs, ?_, ?_⟩
  · rw [htabs, heq]
    simp
    omega
  · intro c hc y hy hyc
    rw [heq] at hbc
    have hbce : Tabs.boundContents (pre ++ x :: post)
        = Tabs.boundContents pre ++ c :: Tabs.boundContents post := by
      unfold Tabs.boundContents
      rw [List.filterMap_append, List.filterMap_cons_some hc]
    rw [hbce, List.nodup_middle, List.nodup_cons] at hbc
    apply hbc.1
    rcases List.mem_append.mp hy with hy | hy
    · exact List.mem_append.mpr (Or.inl (List.mem_filterMap.mpr ⟨y, hy, hyc⟩))
    · exact List.mem_append.mpr (Or.inr (List.mem_filterMap.mpr ⟨y, hy, hyc⟩))

/-- Witness for C5 at the reachable state with one trigger bound to one
content. -/
theorem C5_unregister_trigger_exact_witness :
    ∃ pre x post,
      (Tabs.applyOp (.regContent "c") (Tabs.applyOp (.regTrigger "t")
        Tabs.initState)).tabs = pre ++ x :: post ∧ x.id = "t" ∧
      (Tabs.unregisterTrigger "t" (Tabs.applyOp (.regContent "c")
        (Tabs.applyOp (.regTrigger "t") Tabs.initState))).tabs = pre ++ post ∧
      (Tabs.unregisterTrigger "t" (Tabs.applyOp (.regContent "c")
        (Tabs.applyOp (.regTrigger "t") Tabs.initState))).tabs.length + 1
        = (Tabs.applyOp (.regContent "c") (Tabs.applyOp (.regTrigger "t")
          Tabs.initState)).tabs.length ∧
      ∀ c, x.contentId = some c →
        ∀ y ∈ pre ++ post, y.contentId ≠ some c :=
  C5_unregister_trigger_exact _ "t"
    (Tabs.Reachable.step _ _ (Tabs.Reachable.step _ _ Tabs.Reachable.init))
    (by decide)
